import Mathlib

/-!
Shallow embedding of `src/src/App/App.tsx` (a small React client that looks up a
GitHub user or repository by name).

The embedded parts are exactly the ones the behavioural claims are about:

* `requestExecutor` — the generic HTTP executor (App.tsx lines 89–96);
* the `useRequest` hook — its state triple `{data, error, isLoading}` and the
  `refetch` / `clear` operations (lines 113–143);
* the `useFormManager` hook — validation scan, `handleSubmit`, and the
  `getFieldProps` change handler (lines 153–194);
* `searchValueValidator` (lines 197–205) and the screens' initial form state
  `{ searchValue: '' }` (lines 211–213).

JavaScript values that the form layer can observe are modelled by `JsVal`;
`String.prototype.trim` is modelled by `jsTrim`, which removes whitespace
characters from both ends of the string (ECMA-262 `TrimString`).  React's
`useState` cells become explicit record fields, and a call to a `setX` updater
becomes a functional record update; an `async` run of `refetch` is split into
its synchronous prefix (`refetchStart`) and its continuation after the awaited
promise settles (`refetchSettle`), so that both single non-overlapping runs and
arbitrary interleavings can be stated.
-/

/-- A JavaScript runtime value as observed by the form layer: a string, or one
of the non-string shapes (`typeof value !== 'string'`). -/
inductive JsVal where
  | str (value : String)
  | num (value : Int)
  | jsBool (value : Bool)
  | jsNull
  | jsUndefined
  | obj
  deriving DecidableEq, Repr

/-- Models `typeof value === 'string'` for a `JsVal`. -/
def JsVal.isString : JsVal → Bool
  | .str _ => true
  | _ => false

/-- The value caught by a JavaScript `catch (e)` clause: either an `Error`
instance carrying a message, or any other (non-`Error`) rejection value. -/
inductive JsRejection where
  | errorInstance (message : String)
  | nonError (value : JsVal)
  deriving DecidableEq, Repr

/-- Models `String.prototype.trim` on the character list: drop the whitespace prefix,
then drop the whitespace suffix (via reversal). -/
def trimChars (l : List Char) : List Char :=
  ((l.dropWhile Char.isWhitespace).reverse.dropWhile Char.isWhitespace).reverse

/-- JavaScript `s.trim()`. -/
def jsTrim (s : String) : String :=
  String.mk (trimChars s.data)

/-- The `useRequest` hook's three `useState` cells (App.tsx lines 114–116):
`data : R | null`, `error : string | null`, `isLoading : boolean`. -/
structure RequestState (R : Type) where
  data : Option R
  error : Option String
  isLoading : Bool
  deriving DecidableEq, Repr

/-- The initial hook state: `useState(null)`, `useState(null)`, `useState(false)`. -/
def initialRequestState (R : Type) : RequestState R :=
  { data := none, error := none, isLoading := false }

/-- The synchronous prefix of `refetch` (App.tsx lines 119–121):
`setIsLoading(true); setData(null); setError(null);`. -/
def refetchStart {R : Type} (s : RequestState R) : RequestState R :=
  { s with isLoading := true, data := none, error := none }

/-- The `catch` clause of `refetch` (lines 126–130): an `Error` instance
contributes its `message`, any other rejection value the generic localized
message. -/
def caughtMessage : JsRejection → String
  | .errorInstance message => message
  | .nonError _ => "неизвестная ошибка"

/-- The continuation of `refetch` after the awaited promise settles
(lines 122–133): on fulfilment `setData(res)`, on rejection `setError(...)`
as per `caughtMessage`; the `finally` clause runs `setIsLoading(false)` in
both cases.  Note that the success path does not touch `error` and the
failure path does not touch `data`. -/
def refetchSettle {R : Type} (s : RequestState R) (result : Except JsRejection R) :
    RequestState R :=
  match result with
  | .ok res => { s with data := some res, isLoading := false }
  | .error e => { s with error := some (caughtMessage e), isLoading := false }

/-- A complete, non-overlapping run of `refetch` (lines 118–134): the
synchronous prefix followed immediately by the settling continuation. -/
def refetch {R : Type} (s : RequestState R) (result : Except JsRejection R) :
    RequestState R :=
  refetchSettle (refetchStart s) result

/-- Models `clear` (App.tsx lines 136–140): `setData(null); setIsLoading(false);
setError(null);`. -/
def clear {R : Type} (s : RequestState R) : RequestState R :=
  { s with data := none, isLoading := false, error := none }

/-- Models `requestExecutor` (App.tsx lines 89–96) on a response whose body parsed as
JSON: if the response is not ok, throw `new Error(data.message)`; otherwise
return the parsed body.  The body is the caller's expected shape `T`, and
`messageField` reads its `message` field (the claims assume the body parses as
`{ message: string }`). -/
def requestExecutor {T : Type} (responseOk : Bool) (body : T) (messageField : T → String) :
    Except JsRejection T :=
  if !responseOk then
    Except.error (JsRejection.errorInstance (messageField body))
  else
    Except.ok body

/-- Models `searchValueValidator` (App.tsx lines 197–205): non-strings are rejected
with a "not text" message, strings that trim to empty with a "must not be
empty" message, and every other string is accepted (`null`). -/
def searchValueValidator (value : JsVal) : Option String :=
  match value with
  | .str s =>
    if jsTrim s = "" then some "Введенное значение не должно быть пустым" else none
  | _ => some "Введенное значение не текст"

/-- A `useFormManager` state object: the fields of `IS` in insertion order,
each a JavaScript value.  (The screens instantiate `IS = { searchValue: string }`.) -/
abbrev FormState := List (String × JsVal)

/-- One iteration of the `Object.keys(state).forEach` loop computing `errors`
(App.tsx lines 161–175): look up the field's validator, run it on the field's
value, and on a non-`null` result set `isErrors` and record the message. -/
def computeErrorsStep (validators : String → Option (JsVal → Option String))
    (acc : Bool × List (String × String)) (fieldEntry : String × JsVal) :
    Bool × List (String × String) :=
  match validators fieldEntry.1 with
  | none => acc
  | some validate =>
    match validate fieldEntry.2 with
    | none => acc
    | some msg => (true, acc.2 ++ [(fieldEntry.1, msg)])

/-- The `errors` memo of `useFormManager` (lines 161–175): the `isErrors` flag
and the per-field error messages, accumulated over the fields of the state. -/
def computeErrors (state : FormState) (validators : String → Option (JsVal → Option String)) :
    Bool × List (String × String) :=
  state.foldl (computeErrorsStep validators) (false, [])

/-- The observable outcome of one `handleSubmit` call: whether
`e.preventDefault()` ran, and the state `onSubmit` was invoked with (if it was). -/
structure SubmitOutcome where
  defaultPrevented : Bool
  submittedWith : Option FormState
  deriving DecidableEq, Repr

/-- Models `handleSubmit` (App.tsx lines 177–182): always `e.preventDefault()`, and
invoke `onSubmit(state)` exactly when `errors.isErrors` is false. -/
def handleSubmit (state : FormState) (validators : String → Option (JsVal → Option String)) :
    SubmitOutcome :=
  { defaultPrevented := true
    submittedWith := if (computeErrors state validators).1 then none else some state }

/-- The spread-update `{...prev, [fieldName]: value}` on a form state: if the
field exists its value is replaced in place, otherwise the field is appended. -/
def setField (state : FormState) (fieldName : String) (value : JsVal) : FormState :=
  if state.any (fun fieldEntry => fieldEntry.1 == fieldName) then
    state.map (fun fieldEntry =>
      if fieldEntry.1 == fieldName then (fieldName, value) else fieldEntry)
  else
    state ++ [(fieldName, value)]

/-- Property access `state[fieldName]` on a form state. -/
def lookupField (state : FormState) (fieldName : String) : Option JsVal :=
  (state.find? (fun fieldEntry => fieldEntry.1 == fieldName)).map (fun fieldEntry => fieldEntry.2)

/-- The `onChange` handler produced by `getFieldProps` (App.tsx lines 183–191)
applied to a change event carrying `eventValue`: it calls `onFormStateChange()`
(the returned flag) and stores the trimmed event value,
`setState(prev => ({...prev, [fieldName]: e.target.value.trim()}))`. -/
def getFieldPropsOnChange (state : FormState) (fieldName : String) (eventValue : String) :
    Bool × FormState :=
  (true, setField state fieldName (JsVal.str (jsTrim eventValue)))

/-- The screens' initial form state `{ searchValue: '' }` (App.tsx line 212). -/
def initialSearchFormState : FormState := [("searchValue", JsVal.str "")]

/-- The screens' validator map `{ searchValue: searchValueValidator }`
(App.tsx line 213). -/
def searchFormValidators : String → Option (JsVal → Option String) :=
  fun fieldName => if fieldName == "searchValue" then some searchValueValidator else none

/-- The form state after a sequence of change events on the `searchValue`
field (the only field the screens bind via `getFieldProps`), starting from the
screens' initial state. -/
def applySearchChanges (events : List String) : FormState :=
  events.foldl (fun st ev => (getFieldPropsOnChange st "searchValue" ev).2) initialSearchFormState

/-- The full observable state of one `useRequest` instance: the three state
cells, whether a `refetch` run has started and not yet settled (`pending`),
and whether the most recent lifecycle event was a settling (`settled`) —
`settled` is cleared again by `refetchStart` and by `clear`. -/
structure HookState (R : Type) where
  req : RequestState R
  pending : Bool
  settled : Bool

/-- The hook's state on mount: idle, nothing pending, nothing settled. -/
def initialHookState (R : Type) : HookState R :=
  { req := initialRequestState R, pending := false, settled := false }

/-- One lifecycle event of the `useRequest` hook: starting a `refetch` (only
when no run is in flight — the non-overlapping discipline), the in-flight
run settling with a fulfilment or a rejection, or a `clear` call (which does
not cancel an in-flight run). -/
inductive HookStep {R : Type} : HookState R → HookState R → Prop where
  | start (s : HookState R) (h : s.pending = false) :
      HookStep s { req := refetchStart s.req, pending := true, settled := false }
  | settleStep (s : HookState R) (result : Except JsRejection R) (h : s.pending = true) :
      HookStep s { req := refetchSettle s.req result, pending := false, settled := true }
  | clearStep (s : HookState R) :
      HookStep s { req := clear s.req, pending := s.pending, settled := false }

/-- The hook states reachable from mount by any sequence of lifecycle events. -/
inductive ReachableHook {R : Type} : HookState R → Prop where
  | init : ReachableHook (initialHookState R)
  | step {s t : HookState R} : ReachableHook s → HookStep s t → ReachableHook t

/-- Exactly one of `data` / `error` is present. -/
def settledExactlyOne {R : Type} (s : RequestState R) : Prop :=
  (s.data.isSome = true ∧ s.error = none) ∨ (s.data = none ∧ s.error.isSome = true)

/-- The observable state of one `useRequest` instance under the code's actual
(unguarded) concurrency model: the three state cells, the number of `refetch`
runs in flight (nothing in `refetch` deduplicates or cancels), and whether the
most recent lifecycle event was a settling. -/
structure HookStateFree (R : Type) where
  req : RequestState R
  pendingCount : Nat
  settled : Bool

/-- The hook's unguarded state on mount. -/
def initialHookStateFree (R : Type) : HookStateFree R :=
  { req := initialRequestState R, pendingCount := 0, settled := false }

/-- One lifecycle event of the unguarded hook: `refetch` may start at any
time (the code has no concurrency guard), any in-flight run may settle, and
`clear` may run at any time. -/
inductive HookStepFree {R : Type} : HookStateFree R → HookStateFree R → Prop where
  | startF (s : HookStateFree R) :
      HookStepFree s
        { req := refetchStart s.req, pendingCount := s.pendingCount + 1, settled := false }
  | settleF (s : HookStateFree R) (result : Except JsRejection R)
      (h : 0 < s.pendingCount) :
      HookStepFree s
        { req := refetchSettle s.req result, pendingCount := s.pendingCount - 1,
          settled := true }
  | clearF (s : HookStateFree R) :
      HookStepFree s { req := clear s.req, pendingCount := s.pendingCount, settled := false }

/-- The unguarded hook states reachable from mount. -/
inductive ReachableHookFree {R : Type} : HookStateFree R → Prop where
  | init : ReachableHookFree (initialHookStateFree R)
  | step {s t : HookStateFree R} : ReachableHookFree s → HookStepFree s t → ReachableHookFree t

/-- An entry of the form state passes validation: its validator (if any)
returns `null` on its value. -/
def fieldPasses (validators : String → Option (JsVal → Option String))
    (fieldEntry : String × JsVal) : Bool :=
  match validators fieldEntry.1 with
  | none => true
  | some validate => (validate fieldEntry.2).isNone

/-- After `dropWhile`, the head (if any) fails the predicate. -/
theorem dropWhile_head?_false {α : Type} (p : α → Bool) (l : List α) (a : α)
    (h : (l.dropWhile p).head? = some a) : p a = false := by
  induction l with
  | nil => simp [List.dropWhile] at h
  | cons hd tl ih =>
    cases hk : p hd with
    | true =>
      rw [show (hd :: tl).dropWhile p = tl.dropWhile p by simp [List.dropWhile, hk]] at h
      exact ih h
    | false =>
      rw [show (hd :: tl).dropWhile p = hd :: tl by simp [List.dropWhile, hk]] at h
      simp at h
      rw [← h]; exact hk

/-- The function `dropWhile` leaves a list whose head already fails the predicate unchanged. -/
theorem dropWhile_eq_self_of_head? {α : Type} (p : α → Bool) (l : List α)
    (h : ∀ a, l.head? = some a → p a = false) : l.dropWhile p = l := by
  cases l with
  | nil => rfl
  | cons hd tl => simp [List.dropWhile, h hd rfl]

/-- The function `dropWhile` is idempotent. -/
theorem dropWhile_idem {α : Type} (p : α → Bool) (l : List α) :
    (l.dropWhile p).dropWhile p = l.dropWhile p :=
  dropWhile_eq_self_of_head? p _ (fun a ha => dropWhile_head?_false p l a ha)

/-- The head of a trimmed character list (if any) is not whitespace. -/
theorem trimChars_head? (l : List Char) (a : Char)
    (h : (trimChars l).head? = some a) : Char.isWhitespace a = false := by
  obtain ⟨t, ht⟩ :=
    List.dropWhile_suffix (l := (l.dropWhile Char.isWhitespace).reverse) Char.isWhitespace
  have hm : l.dropWhile Char.isWhitespace =
      ((l.dropWhile Char.isWhitespace).reverse.dropWhile Char.isWhitespace).reverse ++
        t.reverse := by
    have := congrArg List.reverse ht
    simpa [List.reverse_append] using this.symm
  cases hx : trimChars l with
  | nil => rw [hx] at h; simp at h
  | cons b bs =>
    rw [hx] at h
    simp at h
    subst h
    refine dropWhile_head?_false Char.isWhitespace l b ?_
    rw [hm]
    have hx' : ((l.dropWhile Char.isWhitespace).reverse.dropWhile Char.isWhitespace).reverse =
        b :: bs := hx
    rw [hx']
    rfl

/-- Trimming a character list twice is the same as trimming it once. -/
theorem trimChars_idem (l : List Char) : trimChars (trimChars l) = trimChars l := by
  have h1 : (trimChars l).dropWhile Char.isWhitespace = trimChars l :=
    dropWhile_eq_self_of_head? _ _ (fun a ha => trimChars_head? l a ha)
  show (((trimChars l).dropWhile Char.isWhitespace).reverse.dropWhile
      Char.isWhitespace).reverse = trimChars l
  rw [h1]
  have h2 : (trimChars l).reverse =
      (l.dropWhile Char.isWhitespace).reverse.dropWhile Char.isWhitespace := by
    simp [trimChars]
  rw [h2, dropWhile_idem]
  rfl

/-- JavaScript `trim` is idempotent. -/
theorem jsTrim_idem (s : String) : jsTrim (jsTrim s) = jsTrim s :=
  congrArg String.mk (trimChars_idem s.data)

/-- An all-whitespace character list trims to the empty list. -/
theorem trimChars_eq_nil_of_all (l : List Char) (h : ∀ c ∈ l, c.isWhitespace = true) :
    trimChars l = [] := by
  have h1 : l.dropWhile Char.isWhitespace = [] := by
    rw [List.dropWhile_eq_nil_iff]
    exact h
  simp [trimChars, h1]

/-- C1: a single non-overlapping `refetch` run ends with `data` holding the
resolved value and `error` empty on fulfilment, `error` non-empty and `data`
empty on rejection, and `isLoading` false in both terminal cases. -/
theorem refetch_terminal_states {R : Type} (s : RequestState R) :
    (∀ res : R,
      (refetch s (Except.ok res)).data = some res ∧
      (refetch s (Except.ok res)).error = none ∧
      (refetch s (Except.ok res)).isLoading = false) ∧
    (∀ e : JsRejection,
      (refetch s (Except.error e)).data = none ∧
      ((refetch s (Except.error e)).error).isSome = true ∧
      (refetch s (Except.error e)).isLoading = false) :=
  ⟨fun _ => ⟨rfl, rfl, rfl⟩, fun _ => ⟨rfl, rfl, rfl⟩⟩

/-- C6: inside `refetch`, a rejection with an `Error` instance stores that
error's message, and any non-`Error` rejection value stores the generic
localized message. -/
theorem refetch_error_message_mapping {R : Type} (s : RequestState R) (m : String) :
    (refetch s (Except.error (JsRejection.errorInstance m))).error = some m ∧
    (∀ v : JsVal,
      (refetch s (Except.error (JsRejection.nonError v))).error = some "неизвестная ошибка") :=
  ⟨rfl, fun _ => rfl⟩

/-- C7: `clear()` results in empty `data`, empty `error` and `isLoading`
false, whatever the prior state was. -/
theorem clear_resets {R : Type} (s : RequestState R) :
    (clear s).data = none ∧ (clear s).error = none ∧ (clear s).isLoading = false :=
  ⟨rfl, rfl, rfl⟩

/-- C5: on a body that parsed as `{ message: string }`, `requestExecutor`
throws an `Error` carrying the server's message verbatim when the response is
not ok, and returns the parsed body when it is. -/
theorem requestExecutor_spec {T : Type} (responseOk : Bool) (body : T)
    (messageField : T → String) :
    (responseOk = false →
      requestExecutor responseOk body messageField =
        Except.error (JsRejection.errorInstance (messageField body))) ∧
    (responseOk = true → requestExecutor responseOk body messageField = Except.ok body) := by
  cases responseOk <;> simp [requestExecutor]

/-- Witness for C5 at a concrete response (the spec's `{message: "Not Found"}`
scenario) and a concrete ok response. -/
theorem requestExecutor_spec_witness :
    requestExecutor false "body" (fun _ => "Not Found") =
      Except.error (JsRejection.errorInstance "Not Found") ∧
    requestExecutor true "body" (fun _ => "Not Found") = Except.ok "body" :=
  ⟨(requestExecutor_spec false "body" (fun _ => "Not Found")).1 rfl,
   (requestExecutor_spec true "body" (fun _ => "Not Found")).2 rfl⟩

/-- C4: `searchValueValidator` accepts (returns `null` on) every string whose
trimmed form is non-empty, and rejects with a non-null message both the empty
string (whose trim is empty) and every all-whitespace string. -/
theorem searchValueValidator_trim_spec (s : String) :
    (jsTrim s ≠ "" → searchValueValidator (JsVal.str s) = none) ∧
    (jsTrim s = "" →
      searchValueValidator (JsVal.str s) = some "Введенное значение не должно быть пустым") ∧
    ((∀ c ∈ s.data, c.isWhitespace = true) →
      searchValueValidator (JsVal.str s) = some "Введенное значение не должно быть пустым") := by
  refine ⟨?_, ?_, ?_⟩
  · intro h; simp [searchValueValidator, h]
  · intro h; simp [searchValueValidator, h]
  · intro h
    have hnil : jsTrim s = "" := congrArg String.mk (trimChars_eq_nil_of_all s.data h)
    simp [searchValueValidator, hnil]

/-- Witness for C4 at three concrete strings: a non-blank string, the empty
string, and an all-whitespace string. -/
theorem searchValueValidator_trim_spec_witness :
    searchValueValidator (JsVal.str "octocat") = none ∧
    searchValueValidator (JsVal.str "") = some "Введенное значение не должно быть пустым" ∧
    searchValueValidator (JsVal.str "  ") = some "Введенное значение не должно быть пустым" :=
  ⟨(searchValueValidator_trim_spec "octocat").1 (by decide),
   (searchValueValidator_trim_spec "").2.1 (by decide),
   (searchValueValidator_trim_spec "  ").2.2 (by decide)⟩

/-- C9: `searchValueValidator` is total over arbitrary JavaScript values and
returns the "not text" message on every non-string input. -/
theorem searchValueValidator_rejects_non_string (value : JsVal)
    (h : value.isString = false) :
    searchValueValidator value = some "Введенное значение не текст" := by
  cases value <;> simp_all [JsVal.isString, searchValueValidator]

/-- Witness for C9 at the concrete non-string value `null`. -/
theorem searchValueValidator_rejects_non_string_witness :
    searchValueValidator JsVal.jsNull = some "Введенное значение не текст" :=
  searchValueValidator_rejects_non_string JsVal.jsNull rfl

/-- In the replacement branch of `setField`, the first entry matching the key
in the mapped list is the replaced one. -/
theorem find?_setField_replace (state : FormState) (fieldName : String) (value : JsVal)
    (h : state.any (fun fieldEntry => fieldEntry.1 == fieldName) = true) :
    (state.map (fun fieldEntry =>
        if fieldEntry.1 == fieldName then (fieldName, value) else fieldEntry)).find?
      (fun fieldEntry => fieldEntry.1 == fieldName) = some (fieldName, value) := by
  induction state with
  | nil => simp at h
  | cons hd tl ih =>
    rw [List.map_cons]
    cases hk : (hd.1 == fieldName) with
    | true =>
      rw [if_pos rfl]
      exact List.find?_cons_of_pos _ (by simp)
    | false =>
      rw [if_neg (by simp)]
      rw [List.find?_cons_of_neg _ (by simp [hk])]
      refine ih ?_
      rw [List.any_cons, hk] at h
      simpa using h

/-- In the append branch of `setField`, the appended entry is the first (and
only) one matching the key. -/
theorem find?_append_of_none (state : FormState) (fieldName : String) (value : JsVal)
    (h : state.any (fun fieldEntry => fieldEntry.1 == fieldName) = false) :
    (state ++ [(fieldName, value)]).find? (fun fieldEntry => fieldEntry.1 == fieldName) =
      some (fieldName, value) := by
  induction state with
  | nil =>
    rw [List.nil_append]
    exact List.find?_cons_of_pos _ (by simp)
  | cons hd tl ih =>
    rw [List.cons_append]
    rw [List.any_cons] at h
    have hk : (hd.1 == fieldName) = false := by
      cases hkk : (hd.1 == fieldName) with
      | false => rfl
      | true => rw [hkk] at h; simp at h
    rw [List.find?_cons_of_neg _ (by simp [hk])]
    refine ih ?_
    rw [hk] at h
    simpa using h

/-- Reading a field back right after `setField` yields the stored value. -/
theorem lookupField_setField (state : FormState) (fieldName : String) (value : JsVal) :
    lookupField (setField state fieldName value) fieldName = some value := by
  unfold setField lookupField
  split
  · rw [find?_setField_replace state fieldName value (by assumption)]
    rfl
  · rw [find?_append_of_none state fieldName value (Bool.eq_false_iff.mpr (by assumption))]
    rfl

/-- C8: for every change event delivered through `getFieldProps`, the form
manager invokes the change-notification callback and stores the event's value
with surrounding whitespace trimmed into that field of the state. -/
theorem getFieldPropsOnChange_spec (state : FormState) (fieldName : String)
    (eventValue : String) :
    (getFieldPropsOnChange state fieldName eventValue).1 = true ∧
    lookupField (getFieldPropsOnChange state fieldName eventValue).2 fieldName =
      some (JsVal.str (jsTrim eventValue)) :=
  ⟨rfl, lookupField_setField state fieldName (JsVal.str (jsTrim eventValue))⟩

/-- Folding change events over any state whose `searchValue` field holds a
trimmed string preserves that property. -/
theorem applySearchChanges_aux (events : List String) (state : FormState)
    (h : ∃ w, lookupField state "searchValue" = some (JsVal.str w) ∧ jsTrim w = w) :
    ∃ w, lookupField
        (events.foldl (fun st ev => (getFieldPropsOnChange st "searchValue" ev).2) state)
        "searchValue" = some (JsVal.str w) ∧ jsTrim w = w := by
  induction events generalizing state with
  | nil => exact h
  | cons ev rest ih =>
    rw [List.foldl_cons]
    exact ih _ ⟨jsTrim ev,
      lookupField_setField state "searchValue" (JsVal.str (jsTrim ev)), jsTrim_idem ev⟩

/-- C10: starting from the screens' initial form state `{ searchValue: '' }`,
after every sequence of change events the stored `searchValue` equals its own
trim — it never carries leading or trailing whitespace. -/
theorem applySearchChanges_trimmed (events : List String) :
    ∃ w, lookupField (applySearchChanges events) "searchValue" = some (JsVal.str w) ∧
      jsTrim w = w :=
  applySearchChanges_aux events initialSearchFormState ⟨"", by decide, rfl⟩

/-- The `isErrors` flag computed by the fold is the initial flag joined with
"some field fails its validator". -/
theorem computeErrors_fst_aux (validators : String → Option (JsVal → Option String))
    (state : FormState) (b : Bool) (acc : List (String × String)) :
    (state.foldl (computeErrorsStep validators) (b, acc)).1 =
      (b || state.any (fun fieldEntry => !(fieldPasses validators fieldEntry))) := by
  induction state generalizing b acc with
  | nil => simp
  | cons hd tl ih =>
    rw [List.foldl_cons, List.any_cons]
    rcases hv : validators hd.1 with _ | validate
    · rw [show computeErrorsStep validators (b, acc) hd = (b, acc) by
        simp [computeErrorsStep, hv]]
      rw [ih]
      simp [fieldPasses, hv]
    · rcases hr : validate hd.2 with _ | msg
      · rw [show computeErrorsStep validators (b, acc) hd = (b, acc) by
          simp [computeErrorsStep, hv, hr]]
        rw [ih]
        simp [fieldPasses, hv, hr]
      · rw [show computeErrorsStep validators (b, acc) hd = (true, acc ++ [(hd.1, msg)]) by
          simp [computeErrorsStep, hv, hr]]
        rw [ih]
        simp [fieldPasses, hv, hr]

/-- C3: `handleSubmit` always prevents the default form submission, and the
submit callback is invoked (with the current state) precisely when every field
of the state passes its validator; with a failing field it is never invoked. -/
theorem handleSubmit_spec (state : FormState)
    (validators : String → Option (JsVal → Option String)) :
    (handleSubmit state validators).defaultPrevented = true ∧
    ((handleSubmit state validators).submittedWith = some state ↔
      ∀ fieldEntry ∈ state, fieldPasses validators fieldEntry = true) ∧
    ((∃ fieldEntry ∈ state, fieldPasses validators fieldEntry = false) →
      (handleSubmit state validators).submittedWith = none) := by
  have hfst : (computeErrors state validators).1 =
      state.any (fun fieldEntry => !(fieldPasses validators fieldEntry)) := by
    simpa using computeErrors_fst_aux validators state false []
  refine ⟨rfl, ?_, ?_⟩
  · cases hany : state.any (fun fieldEntry => !(fieldPasses validators fieldEntry)) with
    | false =>
      rw [show (handleSubmit state validators).submittedWith = some state by
        simp [handleSubmit, hfst, hany]]
      refine iff_of_true rfl ?_
      intro fe hmem
      cases hfp : fieldPasses validators fe with
      | true => rfl
      | false =>
        have hcontra :
            state.any (fun fieldEntry => !(fieldPasses validators fieldEntry)) = true :=
          List.any_eq_true.mpr ⟨fe, hmem, by rw [hfp]; rfl⟩
        rw [hany] at hcontra
        exact Bool.noConfusion hcontra
    | true =>
      rw [show (handleSubmit state validators).submittedWith = none by
        simp [handleSubmit, hfst, hany]]
      obtain ⟨fieldEntry, hmem, hfail⟩ := List.any_eq_true.mp hany
      refine iff_of_false (by simp) ?_
      intro hall
      have h2 := hall fieldEntry hmem
      rw [h2] at hfail
      simp at hfail
  · rintro ⟨fieldEntry, hmem, hfail⟩
    have hany : state.any (fun fieldEntry => !(fieldPasses validators fieldEntry)) = true :=
      List.any_eq_true.mpr ⟨fieldEntry, hmem, by simp [hfail]⟩
    simp [handleSubmit, hfst, hany]

/-- Witness for C3 on the screens' form: submitting the initial (empty, hence
invalid) state prevents default and never submits; submitting a valid state
submits it. -/
theorem handleSubmit_spec_witness :
    (handleSubmit initialSearchFormState searchFormValidators).defaultPrevented = true ∧
    (handleSubmit initialSearchFormState searchFormValidators).submittedWith = none ∧
    (handleSubmit [("searchValue", JsVal.str "octocat")] searchFormValidators).submittedWith =
      some [("searchValue", JsVal.str "octocat")] :=
  ⟨(handleSubmit_spec initialSearchFormState searchFormValidators).1,
   (handleSubmit_spec initialSearchFormState searchFormValidators).2.2
     ⟨("searchValue", JsVal.str ""), by decide, by decide⟩,
   (handleSubmit_spec [("searchValue", JsVal.str "octocat")] searchFormValidators).2.1.mpr
     (by decide)⟩

/-- The inductive invariant of the `useRequest` lifecycle: a pending run means
the last event was not a settling, a settled hook holds exactly one of
`data` / `error`, and an unsettled hook holds neither. -/
theorem hookInvariant_reachable {R : Type} (s : HookState R) (h : ReachableHook s) :
    (s.pending = true → s.settled = false) ∧
    (s.settled = true → settledExactlyOne s.req) ∧
    (s.settled = false → s.req.data = none ∧ s.req.error = none) := by
  induction h with
  | init =>
    exact ⟨fun _ => rfl, fun hc => absurd hc (by simp [initialHookState]),
      fun _ => ⟨rfl, rfl⟩⟩
  | @step s t hr hstep ih =>
    cases hstep with
    | start hpend =>
      exact ⟨fun _ => rfl, fun hc => absurd hc (by simp), fun _ => ⟨rfl, rfl⟩⟩
    | settleStep result hpend =>
      have hs0 : s.settled = false := ih.1 hpend
      have hboth := ih.2.2 hs0
      refine ⟨fun hc => absurd hc (by simp), fun _ => ?_, fun hc => absurd hc (by simp)⟩
      cases result with
      | ok res => exact Or.inl ⟨rfl, hboth.2⟩
      | error e => exact Or.inr ⟨hboth.1, rfl⟩
    | clearStep =>
      exact ⟨fun _ => rfl, fun hc => absurd hc (by simp), fun _ => ⟨rfl, rfl⟩⟩

/-- C2: in every hook state reachable by any sequence of lifecycle events
(start of a refetch, settling with success or failure, clear), once a request
has settled exactly one of `data` / `error` is present, and while idle or
loading both are absent. -/
theorem useRequest_settled_invariant {R : Type} (s : HookState R) (h : ReachableHook s) :
    (s.settled = true → settledExactlyOne s.req) ∧
    (s.settled = false → s.req.data = none ∧ s.req.error = none) :=
  ⟨(hookInvariant_reachable s h).2.1, (hookInvariant_reachable s h).2.2⟩

/-- Witness for C2 at the concrete reachable state obtained by starting a
refetch from the mount state and settling it successfully. -/
theorem useRequest_settled_invariant_witness :
    settledExactlyOne (refetchSettle (refetchStart (initialRequestState Nat)) (Except.ok 1)) :=
  (useRequest_settled_invariant
      { req := refetchSettle (refetchStart (initialRequestState Nat)) (Except.ok 1),
        pending := false, settled := true }
      (ReachableHook.step
        (ReachableHook.step ReachableHook.init (HookStep.start (initialHookState Nat) rfl))
        (HookStep.settleStep
          { req := refetchStart (initialRequestState Nat), pending := true, settled := false }
          (Except.ok 1) rfl))).1 rfl

/-- Counterexample to C2 as stated: with the operations free to interleave the
way the code actually allows (no guard on `refetch`), the trace
start; start; settle-success `0`; settle-failure `Error("boom")` reaches a
settled state in which `data` and `error` are BOTH present — the race the
spec itself flags. -/
theorem useRequest_invariant_counterexample :
    ReachableHookFree
      ({ req := { data := some 0, error := some "boom", isLoading := false },
         pendingCount := 0, settled := true } : HookStateFree Nat) ∧
    ¬ settledExactlyOne
        ({ data := some 0, error := some "boom", isLoading := false } : RequestState Nat) := by
  constructor
  · have h1 : ReachableHookFree
        ({ req := { data := none, error := none, isLoading := true },
           pendingCount := 1, settled := false } : HookStateFree Nat) :=
      ReachableHookFree.step ReachableHookFree.init (HookStepFree.startF _)
    have h2 : ReachableHookFree
        ({ req := { data := none, error := none, isLoading := true },
           pendingCount := 2, settled := false } : HookStateFree Nat) :=
      ReachableHookFree.step h1 (HookStepFree.startF _)
    have h3 : ReachableHookFree
        ({ req := { data := some 0, error := none, isLoading := false },
           pendingCount := 1, settled := true } : HookStateFree Nat) :=
      ReachableHookFree.step h2 (HookStepFree.settleF _ (Except.ok 0) (by decide))
    exact ReachableHookFree.step h3
      (HookStepFree.settleF _ (Except.error (JsRejection.errorInstance "boom")) (by decide))
  · intro h
    rcases h with ⟨_, h2⟩ | ⟨h1, _⟩
    · exact Option.noConfusion h2
    · exact Option.noConfusion h1
